import Mathlib

/-!
Verification of the Plant Generator Lite core algorithms.

This development is a shallow embedding of the two procedural-geometry
generators of `plant_generator_lite.py`:

* the Vogel phyllotaxis point generator (`VOGEL_OT_Generate.execute`),
  including the custom-instance orientation logic, and
* the L-system string expander (`apply_rules_lsystem`), rule parser and
  turtle interpreter (`LSYSTEM_OT_Generate.execute`).

Python floating-point numbers are modelled as real numbers; the host math
library's 3-vectors, axis-angle quaternion rotation (`Quaternion(axis, angle)`
followed by `Vector.rotate`), `normalized`, `lerp` and the row-matrix
`Matrix((left, heading, up)).transposed()` transform are modelled by explicit
coordinate formulas with the library's documented semantics (rotation by the
Rodrigues formula about the normalized axis, `normalized` of the zero vector
returning the zero vector, `lerp a b f = a*(1-f) + b*f`).

All geometry statements are exact over `ℝ`; exact orthogonality and unit
length imply the floating tolerance bounds stated in the specification.
-/

namespace PlantGen

noncomputable section

/-- A 3D vector with real coordinates, modelling the host math library's
`Vector` type as used by the plugin. -/
@[ext]
structure Vec3 where
  x : ℝ
  y : ℝ
  z : ℝ

instance : DecidableEq Vec3 := Classical.decEq _

def Vec3.add (a b : Vec3) : Vec3 := ⟨a.x + b.x, a.y + b.y, a.z + b.z⟩

def Vec3.sub (a b : Vec3) : Vec3 := ⟨a.x - b.x, a.y - b.y, a.z - b.z⟩

def Vec3.smul (r : ℝ) (a : Vec3) : Vec3 := ⟨r * a.x, r * a.y, r * a.z⟩

instance : Add Vec3 := ⟨Vec3.add⟩

instance : Sub Vec3 := ⟨Vec3.sub⟩

instance : SMul ℝ Vec3 := ⟨Vec3.smul⟩

instance : Zero Vec3 := ⟨⟨0, 0, 0⟩⟩

/-- Dot product of two vectors. -/
def dot (a b : Vec3) : ℝ := a.x * b.x + a.y * b.y + a.z * b.z

/-- Cross product of two vectors. -/
def cross (a b : Vec3) : Vec3 :=
  ⟨a.y * b.z - a.z * b.y, a.z * b.x - a.x * b.z, a.x * b.y - a.y * b.x⟩

/-- Euclidean length, as computed by the host library. -/
def norm (v : Vec3) : ℝ := Real.sqrt (dot v v)

/-- The host library's `Vector.normalized()`: `v / ‖v‖`, with the zero vector
mapped to the zero vector (division by zero yields zero in `ℝ`). -/
def normalized (v : Vec3) : Vec3 := (1 / norm v) • v

/-- The Rodrigues rotation formula: rotation of `v` about the axis `k` by the
angle whose cosine is `c` and sine is `s`. This is the effect of the host
library's unit quaternion rotation. -/
def rodrigues (c s : ℝ) (k v : Vec3) : Vec3 :=
  c • v + s • cross k v + ((1 - c) * dot k v) • k

/-- `math.radians`: degrees to radians. -/
def radians (d : ℝ) : ℝ := d * Real.pi / 180

/-- The host library's `Vector.rotate(Quaternion(axis, θ))`: Rodrigues rotation
about the normalized axis by the angle `θ`. -/
def rotQuat (k : Vec3) (θ : ℝ) (v : Vec3) : Vec3 :=
  rodrigues (Real.cos θ) (Real.sin θ) (normalized k) v

/-! ### Vogel phyllotaxis generator (source lines 197–210) -/

/-- `golden_angle_rad = math.pi * (3.0 - math.sqrt(5.0))`. -/
def goldenAngle : ℝ := Real.pi * (3 - Real.sqrt 5)

/-- The position of point `n` of the Vogel spiral, as computed in the loop of
`VOGEL_OT_Generate.execute`:
`theta = n * golden_angle_rad`, `radius_xy = c * sqrt n`,
`x = radius_xy * cos theta`, `y = radius_xy * sin theta`,
`z = z_offset * sqrt n + z_factor_curvature * radius_xy ** 2`. -/
def vogelPoint (c zOff zCurv : ℝ) (n : ℕ) : Vec3 :=
  ⟨c * Real.sqrt n * Real.cos (n * goldenAngle),
   c * Real.sqrt n * Real.sin (n * goldenAngle),
   zOff * Real.sqrt n + zCurv * (c * Real.sqrt n) ^ 2⟩

/-- The host library's `Vector.lerp`: `a.lerp(b, f) = a*(1-f) + b*f`. -/
def lerp (a b : Vec3) (f : ℝ) : Vec3 := a + f • (b - a)

/-- The secondary ("up") column of the host library's
`to_track_quat('Y', 'Z')` rotation: the unit vector closest to world `Z`
among those orthogonal to the track direction `t`, i.e. the normalized
component of world `Z` orthogonal to `t`. Modelled from the library's
documented track-to semantics (the library itself is external to the
repository source). -/
def trackUp (t : Vec3) : Vec3 := normalized ((⟨0, 0, 1⟩ : Vec3) - dot ⟨0, 0, 1⟩ t • t)

/-- The rotation returned by `target.to_track_quat('Y', 'Z')`, applied to a
vector `v`: the local `Y` axis is mapped exactly onto `t`, the local `Z` axis
onto `trackUp t`, and the local `X` axis onto their cross product (a
right-handed frame). Modelled from the library's documented track-to
semantics. -/
def trackQuatYZ (t v : Vec3) : Vec3 :=
  v.x • cross t (trackUp t) + v.y • t + v.z • trackUp t

/-- `rot_y_to_world_z = Quaternion((1.0, 0.0, 0.0), math.radians(90.0))`
(source line 232), as a rotation acting on vectors: the fixed `Upward`
orientation. -/
def rotYtoZ : Vec3 → Vec3 := rotQuat ⟨1, 0, 0⟩ (radians 90)

/-- `target_y_direction = radial_dir_xy.lerp(world_z_axis, tilt_factor).normalized()`
with `radial_dir_xy = Vector((x, y, 0)).normalized()` and
`tilt_factor = tilt / 90` (source lines 240–248). -/
def normalTarget (x y tilt : ℝ) : Vec3 :=
  normalized (lerp (normalized ⟨x, y, 0⟩) ⟨0, 0, 1⟩ (tilt / 90))

/-- The two leaf-orientation modes of the Vogel generator. -/
inductive LeafOrientation where
  | normal
  | upward

/-- The instance rotation computed in custom-instance mode
(source lines 234–258): `Upward` mode always uses `rotYtoZ`; `Normal` mode
uses the track-to rotation toward the blended target when
`radius_xy > 0.0001`, and falls back to `rotYtoZ` at the center. -/
def vogelInstanceRotation (mode : LeafOrientation) (tilt x y radius : ℝ) :
    Vec3 → Vec3 :=
  match mode with
  | .upward => rotYtoZ
  | .normal =>
    if radius > 0.0001 then trackQuatYZ (normalTarget x y tilt) else rotYtoZ

/-- The instance rotation at Vogel point `n`, with `radius_xy = c * sqrt n`
and `x`, `y` the point coordinates, exactly as at the call site. -/
def vogelPointRotation (mode : LeafOrientation) (c zOff zCurv tilt : ℝ)
    (n : ℕ) : Vec3 → Vec3 :=
  vogelInstanceRotation mode tilt (vogelPoint c zOff zCurv n).x
    (vogelPoint c zOff zCurv n).y (c * Real.sqrt n)

/-! ### L-system string expander and rule parsing (source lines 303–336) -/

/-- Python `str.strip()` on a list of characters. -/
def strip (s : List Char) : List Char :=
  ((s.dropWhile Char.isWhitespace).reverse.dropWhile Char.isWhitespace).reverse

/-- `[r.strip() for r in rules_input.split(',') if r.strip()]`
(source line 315): the non-blank comma-separated entries, stripped. -/
def rulePairs (input : List Char) : List (List Char) :=
  ((input.splitOn ',').map strip).filter (fun r => r ≠ [])

/-- The loop of source lines 321–327: each pair must contain `':'`; it is
split at the first `':'` into stripped key and value. A pair without a colon
is a reported error (`CANCELLED`). The resulting association list keeps the
insertion order; later duplicate keys shadow earlier ones on lookup. -/
def buildDict : List (List Char) → Except String (List (List Char × List Char))
  | [] => .ok []
  | pair :: rest =>
    if ':' ∈ pair then
      match buildDict rest with
      | .error e => .error e
      | .ok d =>
        .ok ((strip (pair.takeWhile (fun c => c ≠ ':')),
              strip ((pair.dropWhile (fun c => c ≠ ':')).tail)) :: d)
    else .error "Rule format incorrect. Use Symbol:Replacement."

/-- Rule parsing in `LSYSTEM_OT_Generate.execute` (source lines 313–331):
an empty pair list or a pair without a colon aborts with an ERROR before any
expansion or geometry. -/
def parseRules (input : List Char) :
    Except String (List (List Char × List Char)) :=
  if rulePairs input = [] then .error "Rules cannot be empty."
  else
    match buildDict (rulePairs input) with
    | .error e => .error e
    | .ok d => if d = [] then .error "No valid rules parsed." else .ok d

/-- `rules_dict.get(char, char)`: look up the one-character key; the last
binding for a key wins (Python dict insertion overwrites). -/
def dictGet (rules : List (List Char × List Char)) (c : Char) : List Char :=
  ((rules.reverse.find? (fun pr => pr.fst = [c])).map Prod.snd).getD [c]

/-- `apply_rules_lsystem` (source lines 303–307): every character is replaced
by its rule's replacement if one exists, else kept, and the pieces are
joined. -/
def apply_rules_lsystem (rules : List (List Char × List Char))
    (s : List Char) : List Char :=
  (s.map (fun c => dictGet rules c)).flatten

/-- Modelled from the spec's words (§4.2), for comparison with the source's
`apply_rules_lsystem`: "replace every symbol with its rule's replacement
string if a rule exists for that symbol, else keep the symbol unchanged",
simultaneously over the whole string. -/
def substituteAll (rules : List (List Char × List Char))
    (s : List Char) : List Char :=
  (s.map (fun c =>
    match (rules.reverse.find? (fun pr => pr.fst = [c])).map Prod.snd with
    | some rep => rep
    | none => [c])).flatten

/-- The expansion loop of source lines 334–336: apply the substitution
`iterations` times in sequence. -/
def expand (rules : List (List Char × List Char)) :
    ℕ → List Char → List Char
  | 0, s => s
  | k + 1, s => expand rules k (apply_rules_lsystem rules s)

/-! ### Turtle interpreter (source lines 338–450) -/

/-- The parameters of the L-system generator (`LSystemProperties`) consumed
by the turtle interpreter. The angle is in degrees (converted once via
`math.radians`), matching the property's documented unit. -/
structure LParams where
  angle : ℝ
  length : ℝ
  initialDirection : Vec3
  addLeaves : Bool
  leafSymbol : Char
  hasLeafObject : Bool
  leafScale : ℝ

/-- The turtle state: position and the frame (heading, up, left) vectors. -/
structure Turtle where
  pos : Vec3
  heading : Vec3
  up : Vec3
  left : Vec3

/-- The full interpreter state: turtle, branch stack, the accumulating
`bmesh` (vertices appended in creation order, edges and quad faces as vertex
indices), reported warnings, and the placement requests issued for prototype
leaf objects. -/
structure LState where
  turtle : Turtle
  stack : List Turtle
  verts : List Vec3
  edges : List (ℕ × ℕ)
  faces : List (ℕ × ℕ × ℕ × ℕ)
  warnings : List String
  leafInstances : List Vec3

/-- Initial frame construction (source lines 340–348): heading is the
normalized configured direction; if it is not nearly parallel to world `Z`
(|heading·Z| < 0.99) the left vector comes from `heading × Z`, else from
`heading × Y`; then `up = left × heading`; all renormalized. -/
def initTurtle (d : Vec3) : Turtle :=
  if |dot (normalized d) ⟨0, 0, 1⟩| < 0.99 then
    { pos := ⟨0, 0, 0⟩
      heading := normalized d
      up := normalized (cross (normalized (cross (normalized d) ⟨0, 0, 1⟩)) (normalized d))
      left := normalized (cross (normalized d) ⟨0, 0, 1⟩) }
  else
    { pos := ⟨0, 0, 0⟩
      heading := normalized d
      up := normalized (cross (normalized (cross (normalized d) ⟨0, 1, 0⟩)) (normalized d))
      left := normalized (cross (normalized d) ⟨0, 1, 0⟩) }

/-- The interpreter's initial state: origin position, derived frame, empty
stack and empty mesh. -/
def initState (p : LParams) : LState :=
  ⟨initTurtle p.initialDirection, [], [], [], [], [], []⟩

/-- The warning reported for an unbalanced closing bracket
(source line 406). -/
def warnMsg : String := "L-System stack empty, unbalanced closing bracket"

/-- `command == "F" or command == "G"`. -/
def isMoveCmd (c : Char) : Bool := c == 'F' || c == 'G'

/-- The ten characters consumed by the `if`/`elif` chain before the leaf
branch is reached. -/
def isTurtleCmd (c : Char) : Bool :=
  isMoveCmd c || c == '+' || c == '-' || c == '&' || c == '^' ||
    c == '\\' || c == '/' || c == '[' || c == ']'

/-- A character on which the interpreter synthesizes a leaf quad into the
main mesh: it falls through the whole turtle `elif` chain, leaves are
enabled, it equals the leaf symbol, and no prototype leaf object is set. -/
def synthLeaf (p : LParams) (c : Char) : Bool :=
  !isTurtleCmd c && (p.addLeaves && (c == p.leafSymbol) && !p.hasLeafObject)

/-- The four corners of the synthesized leaf quad in local coordinates
(source lines 420–423): a `leafScale × leafScale` rectangle in the local
`x`/`y` plane. -/
def leafLocalVerts (s : ℝ) : List Vec3 :=
  [⟨-0.5 * s, 0, 0⟩, ⟨0.5 * s, 0, 0⟩, ⟨0.5 * s, s, 0⟩, ⟨-0.5 * s, s, 0⟩]

/-- Application of `Matrix((left_vec, heading_vec, up_vec)).transposed()` to a
vector: the columns of the transposed row matrix are `left`, `heading`,
`up`. -/
def frameApply (l h u v : Vec3) : Vec3 := v.x • l + v.y • h + v.z • u

/-- The `F`/`G` branch (source lines 354–359): append a vertex at the current
position, advance along the heading by the step length, append the new
position as a second fresh vertex, and (for `F` only) add an edge between the
two. -/
def moveStep (p : LParams) (st : LState) (c : Char) : LState :=
  { st with
    turtle := { st.turtle with pos := st.turtle.pos + p.length • st.turtle.heading }
    verts := st.verts ++ [st.turtle.pos, st.turtle.pos + p.length • st.turtle.heading]
    edges := if c == 'F' then st.edges ++ [(st.verts.length, st.verts.length + 1)]
             else st.edges }

/-- The `+`/`-` branch (source lines 361–369): rotate heading and left about
the up axis by the signed angle. -/
def yawStep (st : LState) (θ : ℝ) : LState :=
  { st with
    turtle := { st.turtle with
      heading := rotQuat st.turtle.up θ st.turtle.heading
      left := rotQuat st.turtle.up θ st.turtle.left } }

/-- The `&`/`^` branch (source lines 371–379): rotate heading and up about
the left axis by the signed angle. -/
def pitchStep (st : LState) (θ : ℝ) : LState :=
  { st with
    turtle := { st.turtle with
      heading := rotQuat st.turtle.left θ st.turtle.heading
      up := rotQuat st.turtle.left θ st.turtle.up } }

/-- The `\`/`/` branch (source lines 381–389): rotate up and left about the
heading axis by the signed angle. -/
def rollStep (st : LState) (θ : ℝ) : LState :=
  { st with
    turtle := { st.turtle with
      up := rotQuat st.turtle.heading θ st.turtle.up
      left := rotQuat st.turtle.heading θ st.turtle.left } }

/-- The `[` branch (source lines 391–397): push a value copy of the turtle
onto the branch stack. -/
def pushStep (st : LState) : LState := { st with stack := st.turtle :: st.stack }

/-- The `]` branch (source lines 398–406): pop the most recent snapshot into
the live turtle; on an empty stack report a WARNING and leave the turtle
unchanged. -/
def popStep (st : LState) : LState :=
  match st.stack with
  | t :: rest => { st with turtle := t, stack := rest }
  | [] => { st with warnings := st.warnings ++ [warnMsg] }

/-- The leaf branch (source lines 408–438): with a prototype leaf object a
placement request is issued at the current position; otherwise the four
corners of a `leafScale × leafScale` quad are transformed by
`translate(position) ∘ rotate(left, heading, up)`, appended as four fresh
vertices, and joined into a new quad face. -/
def leafStep (p : LParams) (st : LState) : LState :=
  if p.hasLeafObject then
    { st with leafInstances := st.leafInstances ++ [st.turtle.pos] }
  else
    { st with
      verts := st.verts ++ (leafLocalVerts p.leafScale).map
        (fun v => st.turtle.pos +
          frameApply st.turtle.left st.turtle.heading st.turtle.up v)
      faces := st.faces ++
        [(st.verts.length, st.verts.length + 1, st.verts.length + 2,
          st.verts.length + 3)] }

/-- One step of the command interpretation loop (source lines 353–438),
mirroring the `if`/`elif` chain in order. Any character not matched by a
branch is a no-op. -/
def step (p : LParams) (st : LState) (c : Char) : LState :=
  if isMoveCmd c then moveStep p st c
  else if c == '+' then yawStep st (radians p.angle)
  else if c == '-' then yawStep st (-(radians p.angle))
  else if c == '&' then pitchStep st (radians p.angle)
  else if c == '^' then pitchStep st (-(radians p.angle))
  else if c == '\\' then rollStep st (radians p.angle)
  else if c == '/' then rollStep st (-(radians p.angle))
  else if c == '[' then pushStep st
  else if c == ']' then popStep st
  else if p.addLeaves && (c == p.leafSymbol) then leafStep p st
  else st

/-- Interpretation of a command string, consuming one symbol at a time. -/
def run (p : LParams) : List Char → LState → LState
  | [], st => st
  | c :: cs, st => run p cs (step p st c)

/-- The final hand-off (source lines 440–450): the mesh is given to the sink
only when it has at least one vertex; otherwise only a warning is reported
and no object is created. -/
def finalizeMesh (st : LState) : Option LState :=
  if 0 < st.verts.length then some st else none

/-- The whole `LSYSTEM_OT_Generate.execute` data path: parse the rules
(aborting with an ERROR on malformed input, before any expansion or
geometry), expand the axiom, interpret the commands, and hand the mesh to
the sink if non-empty. -/
def executeLSystem (p : LParams) (axm rulesInput : List Char) (iters : ℕ) :
    Except String (Option LState) :=
  match parseRules rulesInput with
  | .error e => .error e
  | .ok rules =>
    .ok (finalizeMesh (run p (expand rules iters axm) (initState p)))

/-- Number of `F`/`G` commands in a command string. -/
def countMoves (cmds : List Char) : ℕ := cmds.countP isMoveCmd

/-- Number of synthesized leaf quads emitted for a command string. -/
def countSynthLeaves (p : LParams) (cmds : List Char) : ℕ :=
  cmds.countP (synthLeaf p)

/-- Pairwise orthogonality and unit length of a (heading, up, left) frame. -/
def OrthoF (h u l : Vec3) : Prop :=
  dot h h = 1 ∧ dot u u = 1 ∧ dot l l = 1 ∧
    dot h u = 0 ∧ dot h l = 0 ∧ dot u l = 0

/-- Orthonormality of a turtle's frame. -/
def OrthoT (t : Turtle) : Prop := OrthoF t.heading t.up t.left

/-- Orthonormality of the live frame and of every stacked snapshot. -/
def OrthoS (st : LState) : Prop := OrthoT st.turtle ∧ ∀ t ∈ st.stack, OrthoT t

/-- Concrete parameters: 90° turn angle, unit step, world-Z initial heading,
leaves disabled. Used for the branching test case. -/
def p2 : LParams := ⟨90, 1, ⟨0, 0, 1⟩, false, 'L', false, 1⟩

/-- The command string `F[+F]F`. -/
def cmds2 : List Char := ['F', '[', '+', 'F', ']', 'F']

/-- Parameters with leaf generation enabled, leaf symbol `L`, no prototype
leaf object, generic step length and leaf scale. -/
def pLeaf (len s : ℝ) : LParams := ⟨90, len, ⟨0, 0, 1⟩, true, 'L', false, s⟩

/-- Leaf parameters with a degenerate (zero) leaf scale: every transformed
corner of the quad coincides. -/
def pLeaf0 : LParams := pLeaf 1 0

/-! ### Component lemmas for `Vec3` -/

@[simp] lemma add_x (a b : Vec3) : (a + b).x = a.x + b.x := rfl

@[simp] lemma add_y (a b : Vec3) : (a + b).y = a.y + b.y := rfl

@[simp] lemma add_z (a b : Vec3) : (a + b).z = a.z + b.z := rfl

@[simp] lemma sub_x (a b : Vec3) : (a - b).x = a.x - b.x := rfl

@[simp] lemma sub_y (a b : Vec3) : (a - b).y = a.y - b.y := rfl

@[simp] lemma sub_z (a b : Vec3) : (a - b).z = a.z - b.z := rfl

@[simp] lemma smul_x (r : ℝ) (a : Vec3) : (r • a).x = r * a.x := rfl

@[simp] lemma smul_y (r : ℝ) (a : Vec3) : (r • a).y = r * a.y := rfl

@[simp] lemma smul_z (r : ℝ) (a : Vec3) : (r • a).z = r * a.z := rfl

@[simp] lemma zero_x : (0 : Vec3).x = 0 := rfl

@[simp] lemma zero_y : (0 : Vec3).y = 0 := rfl

@[simp] lemma zero_z : (0 : Vec3).z = 0 := rfl

lemma dot_comm (a b : Vec3) : dot a b = dot b a := by unfold dot; ring

lemma dot_self_nonneg (v : Vec3) : 0 ≤ dot v v := by
  unfold dot; nlinarith [mul_self_nonneg v.x, mul_self_nonneg v.y, mul_self_nonneg v.z]

lemma dot_self_eq_zero_iff (v : Vec3) : dot v v = 0 ↔ v = ⟨0, 0, 0⟩ := by
  constructor
  · intro h
    unfold dot at h
    ext
    · have h1 : v.x * v.x = 0 := by
        nlinarith [mul_self_nonneg v.x, mul_self_nonneg v.y, mul_self_nonneg v.z]
      exact mul_self_eq_zero.mp h1
    · have h1 : v.y * v.y = 0 := by
        nlinarith [mul_self_nonneg v.x, mul_self_nonneg v.y, mul_self_nonneg v.z]
      exact mul_self_eq_zero.mp h1
    · have h1 : v.z * v.z = 0 := by
        nlinarith [mul_self_nonneg v.x, mul_self_nonneg v.y, mul_self_nonneg v.z]
      exact mul_self_eq_zero.mp h1
  · intro h; subst h; unfold dot; norm_num

lemma dot_smul_left (r : ℝ) (a b : Vec3) : dot (r • a) b = r * dot a b := by
  unfold dot; simp; ring

lemma dot_smul_right (r : ℝ) (a b : Vec3) : dot a (r • b) = r * dot a b := by
  unfold dot; simp; ring

lemma dot_cross_left (a b : Vec3) : dot (cross a b) a = 0 := by
  unfold dot cross; ring

lemma dot_cross_right (a b : Vec3) : dot (cross a b) b = 0 := by
  unfold dot cross; ring

/-- Lagrange identity for the squared length of a cross product. -/
lemma dot_cross_self (a b : Vec3) :
    dot (cross a b) (cross a b) = dot a a * dot b b - (dot a b) ^ 2 := by
  unfold dot cross; ring

lemma dot_normalized_self (v : Vec3) (h : dot v v ≠ 0) :
    dot (normalized v) (normalized v) = 1 := by
  have hnn := dot_self_nonneg v
  have hs : Real.sqrt (dot v v) * Real.sqrt (dot v v) = dot v v :=
    Real.mul_self_sqrt hnn
  have hsne : Real.sqrt (dot v v) ≠ 0 := by
    intro h0
    rw [h0, mul_zero] at hs
    exact h hs.symm
  unfold normalized norm
  rw [dot_smul_left, dot_smul_right]
  field_simp

lemma normalized_unit (v : Vec3) (h : dot v v = 1) : normalized v = v := by
  unfold normalized norm
  rw [h, Real.sqrt_one]
  ext <;> simp

lemma dot_normalized_left (v w : Vec3) :
    dot (normalized v) w = (1 / norm v) * dot v w := by
  unfold normalized
  rw [dot_smul_left]

/-! ### Rotation lemmas -/

/-- Rotation about a unit axis preserves dot products (hence lengths and
angles), for any angle with `c² + s² = 1`. -/
lemma rodrigues_dot (c s : ℝ) (k v w : Vec3) (hk : dot k k = 1)
    (hcs : c ^ 2 + s ^ 2 = 1) :
    dot (rodrigues c s k v) (rodrigues c s k w) = dot v w := by
  unfold dot at hk
  unfold rodrigues dot cross
  simp only [add_x, add_y, add_z, smul_x, smul_y, smul_z]
  linear_combination
    ((v.x * w.x + v.y * w.y + v.z * w.z) -
      (k.x * v.x + k.y * v.y + k.z * v.z) * (k.x * w.x + k.y * w.y + k.z * w.z)) * hcs +
    (s ^ 2 * (v.x * w.x + v.y * w.y + v.z * w.z) +
      (1 - c) ^ 2 * (k.x * v.x + k.y * v.y + k.z * v.z) *
        (k.x * w.x + k.y * w.y + k.z * w.z)) * hk

/-- A rotation about a unit axis fixes the axis. -/
lemma rodrigues_axis (c s : ℝ) (k : Vec3) (hk : dot k k = 1) :
    rodrigues c s k k = k := by
  unfold dot at hk
  refine Vec3.ext ?_ ?_ ?_
  · unfold rodrigues dot cross
    simp only [add_x, smul_x]
    linear_combination ((1 - c) * k.x) * hk
  · unfold rodrigues dot cross
    simp only [add_y, smul_y]
    linear_combination ((1 - c) * k.y) * hk
  · unfold rodrigues dot cross
    simp only [add_z, smul_z]
    linear_combination ((1 - c) * k.z) * hk

lemma rodrigues_dot_axis (c s : ℝ) (k v : Vec3) (hk : dot k k = 1)
    (hcs : c ^ 2 + s ^ 2 = 1) :
    dot (rodrigues c s k v) k = dot v k := by
  nth_rewrite 2 [← rodrigues_axis c s k hk]
  exact rodrigues_dot c s k v k hk hcs

lemma rotQuat_dot (k : Vec3) (θ : ℝ) (v w : Vec3) (hk : dot k k = 1) :
    dot (rotQuat k θ v) (rotQuat k θ w) = dot v w := by
  unfold rotQuat
  rw [normalized_unit k hk]
  exact rodrigues_dot _ _ k v w hk (Real.cos_sq_add_sin_sq θ)

lemma rotQuat_dot_axis (k : Vec3) (θ : ℝ) (v : Vec3) (hk : dot k k = 1) :
    dot (rotQuat k θ v) k = dot v k := by
  unfold rotQuat
  rw [normalized_unit k hk]
  exact rodrigues_dot_axis _ _ k v hk (Real.cos_sq_add_sin_sq θ)

lemma radians_90 : radians 90 = Real.pi / 2 := by unfold radians; ring

/-- Rotation by 90° about a unit axis: `v ↦ k × v + (k·v) k`. -/
lemma rotQuat_90 (k v : Vec3) (hk : dot k k = 1) :
    rotQuat k (radians 90) v = cross k v + dot k v • k := by
  unfold rotQuat
  rw [normalized_unit k hk, radians_90, Real.cos_pi_div_two, Real.sin_pi_div_two]
  unfold rodrigues
  ext <;> simp

/-! ### C1: the Vogel position formula and the origin point -/

/-- C1. For every index `n < N` the phyllotaxis generator produces exactly
the position `θ = n·goldenAngle`, `radius = c·√n`,
`(radius·cos θ, radius·sin θ, zOffset·√n + zCurvature·radius²)`; and for
every `N ≥ 1` and `c > 0`, the point at index `0` is exactly the origin
`(0, 0, 0)`. -/
theorem vogel_point_formula (c zOff zCurv : ℝ) (N : ℕ) (hN : 1 ≤ N)
    (hc : 0 < c) :
    (∀ n : ℕ, n < N →
      vogelPoint c zOff zCurv n =
        ⟨c * Real.sqrt n * Real.cos (n * goldenAngle),
         c * Real.sqrt n * Real.sin (n * goldenAngle),
         zOff * Real.sqrt n + zCurv * (c * Real.sqrt n) ^ 2⟩) ∧
    vogelPoint c zOff zCurv 0 = ⟨0, 0, 0⟩ := by
  constructor
  · intro n _
    rfl
  · unfold vogelPoint
    norm_num

/-- Witness for `vogel_point_formula` at `N = 1`, `c = 1`. -/
theorem vogel_point_formula_witness :
    (1 ≤ 1) ∧ (0 : ℝ) < 1 ∧ vogelPoint 1 0 0 0 = ⟨0, 0, 0⟩ :=
  ⟨le_refl 1, one_pos, (vogel_point_formula 1 0 0 1 (le_refl 1) one_pos).2⟩

/-! ### C3: the string expander -/

lemma apply_rules_eq_substituteAll (rules : List (List Char × List Char))
    (s : List Char) : apply_rules_lsystem rules s = substituteAll rules s := by
  unfold apply_rules_lsystem substituteAll dictGet
  congr 1
  apply List.map_congr_left
  intro c _
  cases (rules.reverse.find? (fun pr => pr.fst = [c])).map Prod.snd <;> rfl

lemma expand_eq_iterate (rules : List (List Char × List Char)) (k : ℕ)
    (s : List Char) : expand rules k s = (substituteAll rules)^[k] s := by
  induction k generalizing s with
  | zero => rfl
  | succ k ih =>
    rw [show expand rules (k + 1) s = expand rules k (apply_rules_lsystem rules s) from rfl,
      ih, apply_rules_eq_substituteAll, Function.iterate_succ_apply]

/-- The doubling rule `F → FF` applied to a run of `F`s doubles its length. -/
lemma apply_rules_doubling (m : ℕ) :
    apply_rules_lsystem [(['F'], ['F', 'F'])] (List.replicate m 'F') =
      List.replicate (2 * m) 'F' := by
  induction m with
  | zero => rfl
  | succ m ih =>
    rw [List.replicate_succ, show 2 * (m + 1) = 2 * m + 1 + 1 by ring,
      List.replicate_succ, List.replicate_succ]
    unfold apply_rules_lsystem at ih ⊢
    simp only [List.map_cons, List.flatten_cons]
    rw [ih]
    rfl

lemma expand_doubling (k : ℕ) :
    expand [(['F'], ['F', 'F'])] k ['F'] = List.replicate (2 ^ k) 'F' := by
  have key : ∀ k m : ℕ,
      expand [(['F'], ['F', 'F'])] k (List.replicate m 'F') =
        List.replicate (2 ^ k * m) 'F' := by
    intro k
    induction k with
    | zero => intro m; simp [expand]
    | succ k ih =>
      intro m
      rw [show expand [(['F'], ['F', 'F'])] (k + 1) (List.replicate m 'F') =
          expand [(['F'], ['F', 'F'])] k
            (apply_rules_lsystem [(['F'], ['F', 'F'])] (List.replicate m 'F')) from rfl,
        apply_rules_doubling, ih, show 2 ^ (k + 1) * m = 2 ^ k * (2 * m) by ring]
  have h := key k 1
  rw [mul_one] at h
  simpa using h

/-- C3. The expander applied `k` times equals the `k`-fold iterate of the
simultaneous substitution "replace every symbol having a rule by that rule's
replacement, keep every other symbol" (`substituteAll`, written from the
spec's words); `k = 0` returns the axiom unchanged; and expanding axiom `F`
with the single rule `F:FF` for `k` iterations yields a string of length
`2^k`. -/
theorem lsystem_expand_characterization (rules : List (List Char × List Char))
    (axm : List Char) (k : ℕ) :
    expand rules 0 axm = axm ∧
    expand rules k axm = (substituteAll rules)^[k] axm ∧
    (expand [(['F'], ['F', 'F'])] k ['F']).length = 2 ^ k := by
  refine ⟨rfl, expand_eq_iterate rules k axm, ?_⟩
  rw [expand_doubling k, List.length_replicate]

/-! ### C7: malformed rule input aborts before any geometry -/

lemma buildDict_error_of_missing_colon :
    ∀ l : List (List Char), (∃ pair ∈ l, ':' ∉ pair) →
      ∃ e, buildDict l = .error e := by
  intro l
  induction l with
  | nil => rintro ⟨pair, hmem, _⟩; cases hmem
  | cons pair rest ih =>
    rintro ⟨bad, hmem, hbad⟩
    unfold buildDict
    by_cases hc : ':' ∈ pair
    · rw [if_pos hc]
      have hrest : bad ∈ rest := by
        rcases List.mem_cons.mp hmem with h | h
        · subst h; exact absurd hc hbad
        · exact h
      obtain ⟨e, he⟩ := ih ⟨bad, hrest, hbad⟩
      rw [he]
      exact ⟨e, rfl⟩
    · rw [if_neg hc]
      exact ⟨_, rfl⟩

/-- C7. If the rules input has no non-blank comma-separated pairs, or some
pair lacks a colon, the L-system operation reports an ERROR and aborts: the
result is an error, no expansion is performed and the geometry sink is never
reached (no `Option LState` mesh value is produced at all). -/
theorem malformed_rules_abort (p : LParams) (axm input : List Char)
    (iters : ℕ)
    (h : rulePairs input = [] ∨ ∃ pair ∈ rulePairs input, ':' ∉ pair) :
    ∃ e, executeLSystem p axm input iters = .error e := by
  unfold executeLSystem parseRules
  rcases h with h | h
  · rw [if_pos h]
    exact ⟨_, rfl⟩
  · have hne : rulePairs input ≠ [] := by
      rintro h0
      rw [h0] at h
      obtain ⟨pair, hmem, _⟩ := h
      cases hmem
    rw [if_neg hne]
    obtain ⟨e, he⟩ := buildDict_error_of_missing_colon (rulePairs input) h
    rw [he]
    exact ⟨e, rfl⟩

/-- Witness for `malformed_rules_abort` on the spec's example input `F+F`. -/
theorem malformed_rules_abort_witness :
    (rulePairs ['F', '+', 'F'] = [] ∨
      ∃ pair ∈ rulePairs ['F', '+', 'F'], ':' ∉ pair) ∧
    ∃ e, executeLSystem p2 ['F'] ['F', '+', 'F'] 1 = .error e :=
  ⟨by decide, malformed_rules_abort p2 ['F'] ['F', '+', 'F'] 1 (by decide)⟩

/-! ### Basic interpreter lemmas -/

lemma run_nil (p : LParams) (st : LState) : run p [] st = st := rfl

lemma run_cons (p : LParams) (c : Char) (cs : List Char) (st : LState) :
    run p (c :: cs) st = run p cs (step p st c) := rfl

lemma run_append (p : LParams) (l1 l2 : List Char) (st : LState) :
    run p (l1 ++ l2) st = run p l2 (run p l1 st) := by
  induction l1 generalizing st with
  | nil => rfl
  | cons c cs ih => rw [List.cons_append, run_cons, run_cons, ih]

lemma step_rbracket (p : LParams) (st : LState) : step p st ']' = popStep st := rfl

lemma popStep_cons (st : LState) (t : Turtle) (rest : List Turtle)
    (h : st.stack = t :: rest) :
    popStep st = { st with turtle := t, stack := rest } := by
  unfold popStep
  rw [h]

lemma popStep_nil (st : LState) (h : st.stack = []) :
    popStep st = { st with warnings := st.warnings ++ [warnMsg] } := by
  unfold popStep
  rw [h]

lemma leafStep_stack (p : LParams) (st : LState) :
    (leafStep p st).stack = st.stack := by
  unfold leafStep
  split_ifs <;> rfl

set_option maxHeartbeats 1000000 in
lemma step_stack_invariant (p : LParams) (st : LState) (c : Char)
    (h1 : c ≠ '[') (h2 : c ≠ ']') : (step p st c).stack = st.stack := by
  unfold step
  split_ifs with m1 m2 m3 m4 m5 m6 m7 m8 m9 m10 <;>
    first
      | rfl
      | exact absurd (eq_of_beq m8) h1
      | exact absurd (eq_of_beq m9) h2
      | exact leafStep_stack p st

lemma run_stack_invariant (p : LParams) (cmds : List Char) (st : LState)
    (h : ∀ c ∈ cmds, c ≠ '[' ∧ c ≠ ']') :
    (run p cmds st).stack = st.stack := by
  induction cmds generalizing st with
  | nil => rfl
  | cons c cs ih =>
    rw [run_cons, ih _ (fun d hd => h d (List.mem_cons_of_mem c hd)),
      step_stack_invariant p st c (h c (List.mem_cons_self c cs)).1
        (h c (List.mem_cons_self c cs)).2]

/-! ### C5: push/pop round trip and independence of pushed copies -/

/-- C5. Executing `[` immediately followed by `]` restores the interpreter
state exactly; moreover, since each push stores a value copy, interpreting
`[`, then any bracket-free command sequence (which may move and rotate the
live turtle arbitrarily), then `]`, restores the turtle (position, heading,
up, left) and the stack exactly as before the push. -/
theorem push_pop_roundtrip (p : LParams) (st : LState) (cmds : List Char)
    (h : ∀ c ∈ cmds, c ≠ '[' ∧ c ≠ ']') :
    run p ['[', ']'] st = st ∧
    (run p ('[' :: cmds ++ [']']) st).turtle = st.turtle ∧
    (run p ('[' :: cmds ++ [']']) st).stack = st.stack := by
  have hsplit : run p ('[' :: cmds ++ [']']) st =
      step p (run p cmds (step p st '[')) ']' := by
    rw [show ('[' :: cmds ++ [']'] : List Char) = '[' :: (cmds ++ [']']) from rfl,
      run_cons, run_append, run_cons, run_nil]
  have hstack : (run p cmds (step p st '[')).stack = st.turtle :: st.stack := by
    rw [run_stack_invariant p cmds _ h]
    rfl
  refine ⟨rfl, ?_, ?_⟩
  · rw [hsplit, step_rbracket, popStep_cons _ _ _ hstack]
  · rw [hsplit, step_rbracket, popStep_cons _ _ _ hstack]

/-- Witness for `push_pop_roundtrip`: a bracket-free detour `F+` between the
brackets. -/
theorem push_pop_roundtrip_witness :
    (∀ c ∈ (['F', '+'] : List Char), c ≠ '[' ∧ c ≠ ']') ∧
    (run p2 ['[', ']'] (initState p2) = initState p2 ∧
      (run p2 ('[' :: ['F', '+'] ++ [']']) (initState p2)).turtle =
        (initState p2).turtle ∧
      (run p2 ('[' :: ['F', '+'] ++ [']']) (initState p2)).stack =
        (initState p2).stack) :=
  ⟨by decide, push_pop_roundtrip p2 (initState p2) ['F', '+'] (by decide)⟩

/-! ### C6: unbalanced `]` on an empty stack -/

/-- C6. Interpreting `]` with an empty branch stack appends the WARNING
message, leaves the turtle (position, heading, up, left) unchanged, and
interpretation continues with the remaining symbols from that state. -/
theorem unbalanced_pop_warning (p : LParams) (st : LState) (rest : List Char)
    (h : st.stack = []) :
    (step p st ']').turtle = st.turtle ∧
    (step p st ']').warnings = st.warnings ++ [warnMsg] ∧
    run p (']' :: rest) st = run p rest (step p st ']') := by
  refine ⟨?_, ?_, rfl⟩
  · rw [step_rbracket, popStep_nil st h]
  · rw [step_rbracket, popStep_nil st h]

/-- Witness for `unbalanced_pop_warning`: `]` as the very first symbol of the
command string, from the initial state (origin position, default frame). -/
theorem unbalanced_pop_warning_witness :
    (initState p2).stack = [] ∧
    ((step p2 (initState p2) ']').turtle = (initState p2).turtle ∧
      (step p2 (initState p2) ']').warnings =
        (initState p2).warnings ++ [warnMsg] ∧
      run p2 (']' :: ['F']) (initState p2) =
        run p2 ['F'] (step p2 (initState p2) ']')) :=
  ⟨rfl, unbalanced_pop_warning p2 (initState p2) ['F'] rfl⟩

/-! ### C4: orthonormality of the turtle frame -/

/-- Rotating two frame vectors about a unit axis preserves all the relevant
dot products. -/
lemma rot_pair (θ : ℝ) (k a b : Vec3) (hk : dot k k = 1) (ha : dot a a = 1)
    (hb : dot b b = 1) (hab : dot a b = 0) (hak : dot a k = 0)
    (hbk : dot b k = 0) :
    dot (rotQuat k θ a) (rotQuat k θ a) = 1 ∧
    dot (rotQuat k θ b) (rotQuat k θ b) = 1 ∧
    dot (rotQuat k θ a) (rotQuat k θ b) = 0 ∧
    dot (rotQuat k θ a) k = 0 ∧
    dot (rotQuat k θ b) k = 0 := by
  refine ⟨?_, ?_, ?_, ?_, ?_⟩
  · rw [rotQuat_dot k θ a a hk]; exact ha
  · rw [rotQuat_dot k θ b b hk]; exact hb
  · rw [rotQuat_dot k θ a b hk]; exact hab
  · rw [rotQuat_dot_axis k θ a hk]; exact hak
  · rw [rotQuat_dot_axis k θ b hk]; exact hbk

lemma yawStep_ortho (st : LState) (θ : ℝ) (h : OrthoT st.turtle) :
    OrthoT (yawStep st θ).turtle := by
  unfold OrthoT OrthoF at h ⊢
  obtain ⟨hh, hu, hl, hhu, hhl, hul⟩ := h
  obtain ⟨p1, p2, p3, p4, p5⟩ :=
    rot_pair θ st.turtle.up st.turtle.heading st.turtle.left hu hh hl hhl hhu
      (by rw [dot_comm]; exact hul)
  exact ⟨p1, hu, p2, p4, p3, by rw [dot_comm]; exact p5⟩

lemma pitchStep_ortho (st : LState) (θ : ℝ) (h : OrthoT st.turtle) :
    OrthoT (pitchStep st θ).turtle := by
  unfold OrthoT OrthoF at h ⊢
  obtain ⟨hh, hu, hl, hhu, hhl, hul⟩ := h
  obtain ⟨p1, p2, p3, p4, p5⟩ :=
    rot_pair θ st.turtle.left st.turtle.heading st.turtle.up hl hh hu hhu hhl hul
  exact ⟨p1, p2, hl, p3, p4, p5⟩

lemma rollStep_ortho (st : LState) (θ : ℝ) (h : OrthoT st.turtle) :
    OrthoT (rollStep st θ).turtle := by
  unfold OrthoT OrthoF at h ⊢
  obtain ⟨hh, hu, hl, hhu, hhl, hul⟩ := h
  obtain ⟨p1, p2, p3, p4, p5⟩ :=
    rot_pair θ st.turtle.heading st.turtle.up st.turtle.left hh hu hl hul
      (by rw [dot_comm]; exact hhu) (by rw [dot_comm]; exact hhl)
  exact ⟨hh, p1, p2, by rw [dot_comm]; exact p4, by rw [dot_comm]; exact p5, p3⟩

lemma leafStep_ortho (p : LParams) (st : LState) (h : OrthoT st.turtle) :
    OrthoT (leafStep p st).turtle := by
  unfold leafStep
  split_ifs <;> exact h

set_option maxHeartbeats 1000000 in
/-- Every interpretation step preserves orthonormality of the live frame and
of every stacked snapshot. -/
lemma step_ortho (p : LParams) (st : LState) (c : Char) (h : OrthoS st) :
    OrthoS (step p st c) := by
  obtain ⟨ht, hstk⟩ := h
  unfold step
  split_ifs with m1 m2 m3 m4 m5 m6 m7 m8 m9 m10
  · exact ⟨ht, hstk⟩
  · exact ⟨yawStep_ortho st _ ht, hstk⟩
  · exact ⟨yawStep_ortho st _ ht, hstk⟩
  · exact ⟨pitchStep_ortho st _ ht, hstk⟩
  · exact ⟨pitchStep_ortho st _ ht, hstk⟩
  · exact ⟨rollStep_ortho st _ ht, hstk⟩
  · exact ⟨rollStep_ortho st _ ht, hstk⟩
  · refine ⟨ht, ?_⟩
    intro t htm
    rcases List.mem_cons.mp htm with h | h
    · subst h; exact ht
    · exact hstk t h
  · cases hs : st.stack with
    | nil =>
      rw [popStep_nil st hs]
      exact ⟨ht, hstk⟩
    | cons t rest =>
      rw [popStep_cons st t rest hs]
      refine ⟨hstk t (by rw [hs]; exact List.mem_cons_self t rest), ?_⟩
      intro t' ht'
      exact hstk t' (by rw [hs]; exact List.mem_cons_of_mem t ht')
  · exact ⟨leafStep_ortho p st ht, by rw [leafStep_stack]; exact hstk⟩
  · exact ⟨ht, hstk⟩

lemma run_ortho (p : LParams) (cmds : List Char) (st : LState)
    (h : OrthoS st) : OrthoS (run p cmds st) := by
  induction cmds generalizing st with
  | nil => exact h
  | cons c cs ih => exact ih (step p st c) (step_ortho p st c h)

/-- The initial frame built from a heading `h` and a reference vector `r`
with `h × r ≠ 0` is orthonormal. -/
lemma ortho_build (h r : Vec3) (hh : dot h h = 1)
    (hc : dot (cross h r) (cross h r) ≠ 0) :
    OrthoF h (normalized (cross (normalized (cross h r)) h))
      (normalized (cross h r)) := by
  have hll : dot (normalized (cross h r)) (normalized (cross h r)) = 1 :=
    dot_normalized_self _ hc
  have hlh : dot (normalized (cross h r)) h = 0 := by
    rw [dot_normalized_left, dot_cross_left, mul_zero]
  have huu_raw : dot (cross (normalized (cross h r)) h)
      (cross (normalized (cross h r)) h) = 1 := by
    rw [dot_cross_self, hll, hh, hlh]
    norm_num
  have hu_eq : normalized (cross (normalized (cross h r)) h) =
      cross (normalized (cross h r)) h := normalized_unit _ huu_raw
  unfold OrthoF
  refine ⟨hh, ?_, hll, ?_, ?_, ?_⟩
  · rw [hu_eq]; exact huu_raw
  · rw [hu_eq, dot_comm]; exact dot_cross_right _ _
  · rw [dot_comm]; exact hlh
  · rw [hu_eq, dot_comm]
    rw [dot_comm]
    exact dot_cross_left _ _

lemma dot_zaxis (v : Vec3) : dot v ⟨0, 0, 1⟩ = v.z := by unfold dot; ring

lemma dot_yaxis (v : Vec3) : dot v ⟨0, 1, 0⟩ = v.y := by unfold dot; ring

/-- The initial frame construction yields an orthonormal frame for every
nonzero configured direction. -/
lemma initTurtle_ortho (d : Vec3) (hd : d ≠ ⟨0, 0, 0⟩) :
    OrthoT (initTurtle d) := by
  have hds : dot d d ≠ 0 := fun h0 => hd ((dot_self_eq_zero_iff d).mp h0)
  have hH : dot (normalized d) (normalized d) = 1 := dot_normalized_self d hds
  unfold initTurtle
  split_ifs with hcond
  · have habs := abs_lt.mp hcond
    refine ortho_build (normalized d) ⟨0, 0, 1⟩ hH ?_
    rw [dot_cross_self, hH]
    have hz : dot (⟨0, 0, 1⟩ : Vec3) ⟨0, 0, 1⟩ = 1 := by unfold dot; norm_num
    rw [hz]
    intro heq
    nlinarith [habs.1, habs.2]
  · have h99 : (0.99 : ℝ) ≤ |dot (normalized d) ⟨0, 0, 1⟩| := le_of_not_lt hcond
    refine ortho_build (normalized d) ⟨0, 1, 0⟩ hH ?_
    rw [dot_cross_self, hH]
    have hy : dot (⟨0, 1, 0⟩ : Vec3) ⟨0, 1, 0⟩ = 1 := by unfold dot; norm_num
    rw [hy]
    have hz2 : (0.99 : ℝ) ^ 2 ≤ (dot (normalized d) ⟨0, 0, 1⟩) ^ 2 := by
      nlinarith [sq_abs (dot (normalized d) ⟨0, 0, 1⟩), abs_nonneg (dot (normalized d) ⟨0, 0, 1⟩)]
    rw [dot_zaxis] at hz2
    rw [dot_yaxis]
    unfold dot at hH
    intro heq
    nlinarith [mul_self_nonneg (normalized d).x]

/-- C4. For every nonzero initial heading vector and every command string
(hence every sequence of the rotation commands `+ - & ^ \\ /`, possibly mixed
with any other commands), the frame vectors heading, up, left of the turtle
remain exactly pairwise orthogonal and unit-length after interpretation,
starting from the initial frame built from the configured heading. Exact
equalities over `ℝ` imply the spec's floating-point tolerance bounds. -/
theorem turtle_frame_orthonormal (p : LParams) (cmds : List Char)
    (hd : p.initialDirection ≠ ⟨0, 0, 0⟩) :
    OrthoT (run p cmds (initState p)).turtle :=
  (run_ortho p cmds (initState p)
    ⟨initTurtle_ortho p.initialDirection hd, fun t ht => absurd ht (List.not_mem_nil t)⟩).1

/-- Witness for `turtle_frame_orthonormal`: a mixed rotation sequence from
the default world-Z heading. -/
theorem turtle_frame_orthonormal_witness :
    p2.initialDirection ≠ ⟨0, 0, 0⟩ ∧
    OrthoT (run p2 ['+', '&', '\\', 'F', '-'] (initState p2)).turtle :=
  ⟨by simp [p2, Vec3.mk.injEq],
    turtle_frame_orthonormal p2 ['+', '&', '\\', 'F', '-']
      (by simp [p2, Vec3.mk.injEq])⟩

/-! ### C10: vertex count invariant -/

lemma popStep_verts (st : LState) : (popStep st).verts = st.verts := by
  cases hs : st.stack with
  | nil => rw [popStep_nil st hs]
  | cons t rest => rw [popStep_cons st t rest hs]

/-- An `F`/`G` step appends exactly the two fresh vertices. -/
lemma step_verts_move (p : LParams) (st : LState) (c : Char)
    (h : isMoveCmd c = true) :
    (step p st c).verts =
      st.verts ++ [st.turtle.pos, st.turtle.pos + p.length • st.turtle.heading] := by
  unfold step
  rw [if_pos h]
  rfl

/-- A synthesizing leaf step appends exactly the four transformed quad
corners. -/
lemma step_verts_leaf (p : LParams) (st : LState) (c : Char)
    (h : synthLeaf p c = true) :
    (step p st c).verts =
      st.verts ++ (leafLocalVerts p.leafScale).map
        (fun v => st.turtle.pos +
          frameApply st.turtle.left st.turtle.heading st.turtle.up v) := by
  unfold synthLeaf at h
  simp only [Bool.and_eq_true, Bool.not_eq_true'] at h
  obtain ⟨htc, ⟨hadd, hsym⟩, hobj⟩ := h
  unfold isTurtleCmd at htc
  simp only [Bool.or_eq_false_iff] at htc
  obtain ⟨⟨⟨⟨⟨⟨⟨⟨hmv, hp⟩, hmn⟩, ham⟩, hcar⟩, hbs⟩, hsl⟩, hlb⟩, hrb⟩ := htc
  unfold step leafStep
  simp [hmv, hp, hmn, ham, hcar, hbs, hsl, hlb, hrb, hadd, hsym, hobj]

set_option maxHeartbeats 1000000 in
/-- Any other step leaves the vertex list unchanged. -/
lemma step_verts_other (p : LParams) (st : LState) (c : Char)
    (h1 : isMoveCmd c = false) (h2 : synthLeaf p c = false) :
    (step p st c).verts = st.verts := by
  unfold step
  split_ifs with m1 m2 m3 m4 m5 m6 m7 m8 m9 m10
  · rw [h1] at m1; cases m1
  · rfl
  · rfl
  · rfl
  · rfl
  · rfl
  · rfl
  · rfl
  · exact popStep_verts st
  · unfold leafStep
    split_ifs with hobj
    · rfl
    · exfalso
      have htc : isTurtleCmd c = false := by
        unfold isTurtleCmd
        simp only [Bool.not_eq_true] at m2 m3 m4 m5 m6 m7 m8 m9
        simp [h1, m2, m3, m4, m5, m6, m7, m8, m9]
      unfold synthLeaf at h2
      rw [htc] at h2
      simp only [Bool.not_eq_true] at hobj
      rw [hobj, m10] at h2
      simp at h2
  · rfl

lemma run_verts_count (p : LParams) (cmds : List Char) (st : LState) :
    (run p cmds st).verts.length =
      st.verts.length + 2 * countMoves cmds + 4 * countSynthLeaves p cmds := by
  induction cmds generalizing st with
  | nil => simp [run, countMoves, countSynthLeaves]
  | cons c cs ih =>
    rw [run_cons, ih]
    unfold countMoves countSynthLeaves
    rw [List.countP_cons, List.countP_cons]
    by_cases hm : isMoveCmd c
    · have hs : synthLeaf p c = false := by
        unfold synthLeaf isTurtleCmd
        simp [hm]
      rw [step_verts_move p st c hm]
      simp only [List.length_append, List.length_cons, List.length_nil, hm, hs,
        Bool.false_eq_true, if_true, if_false]
      omega
    · have hm' : isMoveCmd c = false := by
        simp only [Bool.not_eq_true] at hm; exact hm
      by_cases hs : synthLeaf p c
      · rw [step_verts_leaf p st c hs]
        simp only [List.length_append, List.length_map, leafLocalVerts,
          List.length_cons, List.length_nil, hm', hs, Bool.false_eq_true,
          if_true, if_false]
        omega
      · have hs' : synthLeaf p c = false := by
          simp only [Bool.not_eq_true] at hs; exact hs
        rw [step_verts_other p st c hm' hs']
        simp only [hm', hs', Bool.false_eq_true, if_false]
        omega

/-- C10. For every parameter record and command string, the final vertex
count equals two per `F`/`G` command plus four per synthesized leaf quad,
starting from any state (so coinciding positions are never merged or
reused); consequently any command string containing at least one `F` or `G`
yields a mesh with at least one vertex, which is handed to the sink. -/
theorem vertex_count_invariant (p : LParams) (cmds : List Char) :
    (∀ st : LState, (run p cmds st).verts.length =
      st.verts.length + 2 * countMoves cmds + 4 * countSynthLeaves p cmds) ∧
    (('F' ∈ cmds ∨ 'G' ∈ cmds) →
      0 < (run p cmds (initState p)).verts.length ∧
      finalizeMesh (run p cmds (initState p)) =
        some (run p cmds (initState p))) := by
  refine ⟨fun st => run_verts_count p cmds st, fun hmem => ?_⟩
  have hpos : 0 < countMoves cmds := by
    unfold countMoves
    apply List.countP_pos_iff.mpr
    rcases hmem with h | h
    · exact ⟨'F', h, rfl⟩
    · exact ⟨'G', h, rfl⟩
  have h1 := run_verts_count p cmds (initState p)
  have h0 : (initState p).verts.length = 0 := rfl
  have hlen : 0 < (run p cmds (initState p)).verts.length := by omega
  exact ⟨hlen, by unfold finalizeMesh; rw [if_pos hlen]⟩

/-- Witness for `vertex_count_invariant` on the single command `F`. -/
theorem vertex_count_invariant_witness :
    ('F' ∈ (['F'] : List Char) ∨ 'G' ∈ (['F'] : List Char)) ∧
    (0 < (run p2 ['F'] (initState p2)).verts.length ∧
      finalizeMesh (run p2 ['F'] (initState p2)) =
        some (run p2 ['F'] (initState p2))) :=
  ⟨Or.inl (by decide), (vertex_count_invariant p2 ['F']).2 (Or.inl (by decide))⟩

/-! ### C8: custom-instance orientation in Normal mode -/

lemma dot_sub_left (a b c : Vec3) : dot (a - b) c = dot a c - dot b c := by
  unfold dot; simp; ring

lemma dot_sub_right (a b c : Vec3) : dot a (b - c) = dot a b - dot a c := by
  unfold dot; simp; ring

lemma dot_zz : dot (⟨0, 0, 1⟩ : Vec3) ⟨0, 0, 1⟩ = 1 := by unfold dot; norm_num

lemma sqrt_cancel (q : ℝ) (hq : 0 ≤ q) : 1 / Real.sqrt q * q = Real.sqrt q := by
  rcases eq_or_lt_of_le hq with h | h
  · rw [← h]; simp
  · have hs : 0 < Real.sqrt q := Real.sqrt_pos.mpr h
    field_simp

/-- Cauchy–Schwarz for a unit vector `w`: `w · p ≤ ‖p‖`. -/
lemma dot_le_sqrt (w pv : Vec3) (hww : dot w w = 1) :
    dot w pv ≤ Real.sqrt (dot pv pv) := by
  have hlag : (dot w pv) ^ 2 ≤ dot w w * dot pv pv := by
    unfold dot
    nlinarith [sq_nonneg (w.y * pv.z - w.z * pv.y),
      sq_nonneg (w.z * pv.x - w.x * pv.z), sq_nonneg (w.x * pv.y - w.y * pv.x)]
  rcases le_or_lt (dot w pv) 0 with hneg | hpos
  · exact le_trans hneg (Real.sqrt_nonneg _)
  · have h2 : (dot w pv) ^ 2 ≤ dot pv pv := by
      rw [hww, one_mul] at hlag; exact hlag
    calc dot w pv = Real.sqrt ((dot w pv) ^ 2) := (Real.sqrt_sq hpos.le).symm
      _ ≤ Real.sqrt (dot pv pv) := Real.sqrt_le_sqrt h2

/-- The tracked-up vector attains `‖proj‖` against world Z. -/
lemma trackUp_dot_z (t : Vec3) (ht : dot t t = 1) :
    dot (trackUp t) ⟨0, 0, 1⟩ =
      Real.sqrt (dot ((⟨0, 0, 1⟩ : Vec3) - dot ⟨0, 0, 1⟩ t • t)
        ((⟨0, 0, 1⟩ : Vec3) - dot ⟨0, 0, 1⟩ t • t)) := by
  have e1 : dot ((⟨0, 0, 1⟩ : Vec3) - dot ⟨0, 0, 1⟩ t • t) ⟨0, 0, 1⟩ =
      1 - dot ⟨0, 0, 1⟩ t ^ 2 := by
    rw [dot_sub_left, dot_smul_left, dot_zz, dot_comm t ⟨0, 0, 1⟩]
    ring
  have e2 : dot ((⟨0, 0, 1⟩ : Vec3) - dot ⟨0, 0, 1⟩ t • t)
      ((⟨0, 0, 1⟩ : Vec3) - dot ⟨0, 0, 1⟩ t • t) =
      1 - dot ⟨0, 0, 1⟩ t ^ 2 := by
    rw [dot_sub_left, dot_sub_right, dot_sub_right, dot_smul_left, dot_smul_left,
      dot_smul_right, dot_smul_right, dot_zz, ht, dot_comm t ⟨0, 0, 1⟩]
    ring
  have hq : 0 ≤ 1 - dot ⟨0, 0, 1⟩ t ^ 2 := by
    rw [← e2]
    exact dot_self_nonneg _
  unfold trackUp
  rw [dot_normalized_left, e1]
  unfold norm
  rw [e2]
  exact sqrt_cancel _ hq

/-- Among unit vectors orthogonal to the track direction, the tracked-up
vector is the one closest to world Z. -/
lemma trackUp_opt (t w : Vec3) (ht : dot t t = 1) (hwt : dot w t = 0)
    (hww : dot w w = 1) :
    dot w ⟨0, 0, 1⟩ ≤ dot (trackUp t) ⟨0, 0, 1⟩ := by
  have hwp : dot w ((⟨0, 0, 1⟩ : Vec3) - dot ⟨0, 0, 1⟩ t • t) = dot w ⟨0, 0, 1⟩ := by
    rw [dot_sub_right, dot_smul_right, hwt, mul_zero, sub_zero]
  calc dot w ⟨0, 0, 1⟩
      = dot w ((⟨0, 0, 1⟩ : Vec3) - dot ⟨0, 0, 1⟩ t • t) := hwp.symm
    _ ≤ Real.sqrt (dot ((⟨0, 0, 1⟩ : Vec3) - dot ⟨0, 0, 1⟩ t • t)
        ((⟨0, 0, 1⟩ : Vec3) - dot ⟨0, 0, 1⟩ t • t)) := dot_le_sqrt w _ hww
    _ = dot (trackUp t) ⟨0, 0, 1⟩ := (trackUp_dot_z t ht).symm

lemma trackQuat_align_y (t : Vec3) : trackQuatYZ t ⟨0, 1, 0⟩ = t := by
  unfold trackQuatYZ
  ext <;> simp

lemma trackQuat_align_z (t : Vec3) : trackQuatYZ t ⟨0, 0, 1⟩ = trackUp t := by
  unfold trackQuatYZ
  ext <;> simp

lemma rotYtoZ_maps_y : rotYtoZ ⟨0, 1, 0⟩ = ⟨0, 0, 1⟩ := by
  unfold rotYtoZ
  rw [rotQuat_90 _ _ (by unfold dot; norm_num)]
  unfold cross dot
  ext <;> simp

lemma lerp_ne_zero (r : Vec3) (f : ℝ) (hr : dot r r = 1) (hz : r.z = 0) :
    dot (lerp r ⟨0, 0, 1⟩ f) (lerp r ⟨0, 0, 1⟩ f) ≠ 0 := by
  unfold lerp
  unfold dot at hr ⊢
  simp only [add_x, add_y, add_z, smul_x, smul_y, smul_z, sub_x, sub_y, sub_z]
  rw [hz] at hr ⊢
  intro heq
  nlinarith [heq, hr, sq_nonneg (1 - 2 * f), sq_nonneg (1 - f), sq_nonneg f]

lemma normalized_z_of (v : Vec3) (h : v.z = 0) : (normalized v).z = 0 := by
  unfold normalized
  simp [h]

lemma vogel_radius_sq (c zOff zCurv : ℝ) (n : ℕ) :
    (vogelPoint c zOff zCurv n).x ^ 2 + (vogelPoint c zOff zCurv n).y ^ 2 =
      (c * Real.sqrt n) ^ 2 := by
  show (c * Real.sqrt n * Real.cos (n * goldenAngle)) ^ 2 +
      (c * Real.sqrt n * Real.sin (n * goldenAngle)) ^ 2 = (c * Real.sqrt n) ^ 2
  linear_combination (c * Real.sqrt n) ^ 2 * Real.sin_sq_add_cos_sq (n * goldenAngle)

/-- The blended target direction is a unit vector whenever the point is off
the vertical axis. -/
lemma normalTarget_unit (x y tilt : ℝ) (hxy : x * x + y * y ≠ 0) :
    dot (normalTarget x y tilt) (normalTarget x y tilt) = 1 := by
  unfold normalTarget
  apply dot_normalized_self
  apply lerp_ne_zero
  · exact dot_normalized_self ⟨x, y, 0⟩ (by unfold dot; simpa using hxy)
  · exact normalized_z_of ⟨x, y, 0⟩ rfl

/-- C8. In custom-instance `Normal` mode: for every Vogel point with
`radius_xy > ε` (ε = 0.0001), the rotation maps the prototype's local
forward (`Y`) axis exactly onto the renormalized linear interpolation
between the normalized horizontal radial direction and world vertical
weighted by `tilt/90`, and maps local up (`Z`) onto the unit vector
orthogonal to the target closest to world vertical (no unit vector
orthogonal to the target has a larger dot product with world Z); for
`radius_xy ≤ ε` the instance instead receives the fixed `Upward` rotation,
90° about world X, which maps local forward onto world Z. -/
theorem vogel_normal_orientation (c zOff zCurv tilt : ℝ) (n : ℕ) (w : Vec3) :
    (0.0001 < c * Real.sqrt n →
      vogelPointRotation .normal c zOff zCurv tilt n ⟨0, 1, 0⟩ =
        normalTarget (vogelPoint c zOff zCurv n).x (vogelPoint c zOff zCurv n).y tilt ∧
      (dot w (normalTarget (vogelPoint c zOff zCurv n).x
          (vogelPoint c zOff zCurv n).y tilt) = 0 → dot w w = 1 →
        dot w ⟨0, 0, 1⟩ ≤
          dot (vogelPointRotation .normal c zOff zCurv tilt n ⟨0, 0, 1⟩) ⟨0, 0, 1⟩)) ∧
    (c * Real.sqrt n ≤ 0.0001 →
      vogelPointRotation .normal c zOff zCurv tilt n = rotYtoZ ∧
      rotYtoZ ⟨0, 1, 0⟩ = ⟨0, 0, 1⟩) := by
  constructor
  · intro hrad
    have hrot : vogelPointRotation LeafOrientation.normal c zOff zCurv tilt n =
        trackQuatYZ (normalTarget (vogelPoint c zOff zCurv n).x
          (vogelPoint c zOff zCurv n).y tilt) := by
      unfold vogelPointRotation vogelInstanceRotation
      rw [if_pos hrad]
    have hxy : (vogelPoint c zOff zCurv n).x * (vogelPoint c zOff zCurv n).x +
        (vogelPoint c zOff zCurv n).y * (vogelPoint c zOff zCurv n).y ≠ 0 := by
      have h1 := vogel_radius_sq c zOff zCurv n
      nlinarith [hrad, h1]
    have htt := normalTarget_unit (vogelPoint c zOff zCurv n).x
      (vogelPoint c zOff zCurv n).y tilt hxy
    refine ⟨by rw [hrot, trackQuat_align_y], fun hwt hww => ?_⟩
    rw [hrot, trackQuat_align_z]
    exact trackUp_opt _ w htt hwt hww
  · intro hrad
    constructor
    · unfold vogelPointRotation vogelInstanceRotation
      rw [if_neg (not_lt.mpr hrad)]
    · exact rotYtoZ_maps_y

/-- Witness for `vogel_normal_orientation` at `c = 1`, `n = 1`, `tilt = 0`,
`w = (0, 0, 1)`, discharging all hypotheses concretely. -/
theorem vogel_normal_orientation_witness :
    (0.0001 < (1 : ℝ) * Real.sqrt ((1 : ℕ) : ℝ)) ∧
    (dot ⟨0, 0, 1⟩ (normalTarget (vogelPoint 1 0 0 1).x (vogelPoint 1 0 0 1).y 0) = 0 ∧
      dot (⟨0, 0, 1⟩ : Vec3) ⟨0, 0, 1⟩ = 1) ∧
    (vogelPointRotation .normal 1 0 0 0 1 ⟨0, 1, 0⟩ =
        normalTarget (vogelPoint 1 0 0 1).x (vogelPoint 1 0 0 1).y 0 ∧
      dot (⟨0, 0, 1⟩ : Vec3) ⟨0, 0, 1⟩ ≤
        dot (vogelPointRotation .normal 1 0 0 0 1 ⟨0, 0, 1⟩) ⟨0, 0, 1⟩) := by
  have hrad : (0.0001 : ℝ) < 1 * Real.sqrt ((1 : ℕ) : ℝ) := by
    rw [Nat.cast_one, Real.sqrt_one]; norm_num
  have hz : (normalTarget (vogelPoint 1 0 0 1).x (vogelPoint 1 0 0 1).y 0).z = 0 := by
    unfold normalTarget
    apply normalized_z_of
    unfold lerp
    rw [add_z, smul_z, sub_z,
      normalized_z_of ⟨(vogelPoint 1 0 0 1).x, (vogelPoint 1 0 0 1).y, 0⟩ rfl]
    norm_num
  have hwt : dot ⟨0, 0, 1⟩
      (normalTarget (vogelPoint 1 0 0 1).x (vogelPoint 1 0 0 1).y 0) = 0 := by
    rw [dot_comm, dot_zaxis, hz]
  obtain ⟨h1, h2⟩ := (vogel_normal_orientation 1 0 0 0 1 ⟨0, 0, 1⟩).1 hrad
  exact ⟨hrad, ⟨hwt, dot_zz⟩, h1, h2 hwt dot_zz⟩

/-! ### Concrete evaluation lemmas for the branching and leaf test cases -/

@[simp] lemma mk_add_mk (a b c d e f : ℝ) :
    (⟨a, b, c⟩ : Vec3) + ⟨d, e, f⟩ = ⟨a + d, b + e, c + f⟩ := rfl

@[simp] lemma mk_sub_mk (a b c d e f : ℝ) :
    (⟨a, b, c⟩ : Vec3) - ⟨d, e, f⟩ = ⟨a - d, b - e, c - f⟩ := rfl

@[simp] lemma smul_mk (r a b c : ℝ) :
    r • (⟨a, b, c⟩ : Vec3) = ⟨r * a, r * b, r * c⟩ := rfl

lemma dot_mk (a b c d e f : ℝ) :
    dot ⟨a, b, c⟩ ⟨d, e, f⟩ = a * d + b * e + c * f := rfl

lemma cross_mk (a b c d e f : ℝ) :
    cross ⟨a, b, c⟩ ⟨d, e, f⟩ = ⟨b * f - c * e, c * d - a * f, a * e - b * d⟩ := rfl

/-- The default initial frame: heading world Z, up world Y, left negative
world X. -/
lemma initTurtle_z :
    initTurtle ⟨0, 0, 1⟩ = ⟨⟨0, 0, 0⟩, ⟨0, 0, 1⟩, ⟨0, 1, 0⟩, ⟨-1, 0, 0⟩⟩ := by
  unfold initTurtle
  rw [normalized_unit ⟨0, 0, 1⟩ dot_zz]
  rw [if_neg (by rw [dot_zz]; norm_num)]
  have hc1 : cross (⟨0, 0, 1⟩ : Vec3) ⟨0, 1, 0⟩ = ⟨-1, 0, 0⟩ := by
    rw [cross_mk]; norm_num
  rw [hc1, normalized_unit ⟨-1, 0, 0⟩ (by rw [dot_mk]; norm_num)]
  have hc2 : cross (⟨-1, 0, 0⟩ : Vec3) ⟨0, 0, 1⟩ = ⟨0, 1, 0⟩ := by
    rw [cross_mk]; norm_num
  rw [hc2, normalized_unit ⟨0, 1, 0⟩ (by rw [dot_mk]; norm_num)]

lemma initState_p2 :
    initState p2 =
      ⟨⟨⟨0, 0, 0⟩, ⟨0, 0, 1⟩, ⟨0, 1, 0⟩, ⟨-1, 0, 0⟩⟩, [], [], [], [], [], []⟩ := by
  unfold initState
  rw [show p2.initialDirection = ⟨0, 0, 1⟩ from rfl, initTurtle_z]

lemma step_F (p : LParams) (st : LState) : step p st 'F' = moveStep p st 'F' := rfl

lemma step_plus (p : LParams) (st : LState) :
    step p st '+' = yawStep st (radians p.angle) := rfl

lemma step_lbracket (p : LParams) (st : LState) : step p st '[' = pushStep st := rfl

lemma rotq_plus_heading :
    rotQuat ⟨0, 1, 0⟩ (radians 90) ⟨0, 0, 1⟩ = ⟨1, 0, 0⟩ := by
  rw [rotQuat_90 _ _ (by rw [dot_mk]; norm_num), cross_mk, dot_mk]
  simp

lemma rotq_plus_left :
    rotQuat ⟨0, 1, 0⟩ (radians 90) ⟨-1, 0, 0⟩ = ⟨0, 0, 1⟩ := by
  rw [rotQuat_90 _ _ (by rw [dot_mk]; norm_num), cross_mk, dot_mk]
  simp

/-! ### C2: the branching test case `F[+F]F` -/

/-- C2. Interpreting `F[+F]F` with angle 90°, length 1 and the default
world-Z heading yields exactly 3 edges and exactly 4 distinct vertex
positions, and the last two vertices (the segment of the final `F`) continue
straight from the pre-bracket position along the pre-bracket heading,
unaffected by the bracketed `+F` detour. -/
theorem lsystem_branch_mesh :
    (run p2 cmds2 (initState p2)).edges.length = 3 ∧
    (run p2 cmds2 (initState p2)).verts.toFinset.card = 4 ∧
    (run p2 cmds2 (initState p2)).verts.drop 4 =
      [(run p2 ['F'] (initState p2)).turtle.pos,
       (run p2 ['F'] (initState p2)).turtle.pos +
         p2.length • (run p2 ['F'] (initState p2)).turtle.heading] := by
  have e1 : step p2 (⟨⟨⟨0, 0, 0⟩, ⟨0, 0, 1⟩, ⟨0, 1, 0⟩, ⟨-1, 0, 0⟩⟩,
      [], [], [], [], [], []⟩ : LState) 'F' =
      ⟨⟨⟨0, 0, 1⟩, ⟨0, 0, 1⟩, ⟨0, 1, 0⟩, ⟨-1, 0, 0⟩⟩,
        [], [⟨0, 0, 0⟩, ⟨0, 0, 1⟩], [(0, 1)], [], [], []⟩ := by
    rw [step_F]
    unfold moveStep
    simp [p2]
    try norm_num
  have e2 : step p2 (⟨⟨⟨0, 0, 1⟩, ⟨0, 0, 1⟩, ⟨0, 1, 0⟩, ⟨-1, 0, 0⟩⟩,
      [], [⟨0, 0, 0⟩, ⟨0, 0, 1⟩], [(0, 1)], [], [], []⟩ : LState) '[' =
      ⟨⟨⟨0, 0, 1⟩, ⟨0, 0, 1⟩, ⟨0, 1, 0⟩, ⟨-1, 0, 0⟩⟩,
        [⟨⟨0, 0, 1⟩, ⟨0, 0, 1⟩, ⟨0, 1, 0⟩, ⟨-1, 0, 0⟩⟩],
        [⟨0, 0, 0⟩, ⟨0, 0, 1⟩], [(0, 1)], [], [], []⟩ := rfl
  have e3 : step p2 (⟨⟨⟨0, 0, 1⟩, ⟨0, 0, 1⟩, ⟨0, 1, 0⟩, ⟨-1, 0, 0⟩⟩,
      [⟨⟨0, 0, 1⟩, ⟨0, 0, 1⟩, ⟨0, 1, 0⟩, ⟨-1, 0, 0⟩⟩],
      [⟨0, 0, 0⟩, ⟨0, 0, 1⟩], [(0, 1)], [], [], []⟩ : LState) '+' =
      ⟨⟨⟨0, 0, 1⟩, ⟨1, 0, 0⟩, ⟨0, 1, 0⟩, ⟨0, 0, 1⟩⟩,
        [⟨⟨0, 0, 1⟩, ⟨0, 0, 1⟩, ⟨0, 1, 0⟩, ⟨-1, 0, 0⟩⟩],
        [⟨0, 0, 0⟩, ⟨0, 0, 1⟩], [(0, 1)], [], [], []⟩ := by
    rw [step_plus]
    unfold yawStep
    dsimp only
    rw [show radians p2.angle = radians 90 from rfl, rotq_plus_heading, rotq_plus_left]
  have e4 : step p2 (⟨⟨⟨0, 0, 1⟩, ⟨1, 0, 0⟩, ⟨0, 1, 0⟩, ⟨0, 0, 1⟩⟩,
      [⟨⟨0, 0, 1⟩, ⟨0, 0, 1⟩, ⟨0, 1, 0⟩, ⟨-1, 0, 0⟩⟩],
      [⟨0, 0, 0⟩, ⟨0, 0, 1⟩], [(0, 1)], [], [], []⟩ : LState) 'F' =
      ⟨⟨⟨1, 0, 1⟩, ⟨1, 0, 0⟩, ⟨0, 1, 0⟩, ⟨0, 0, 1⟩⟩,
        [⟨⟨0, 0, 1⟩, ⟨0, 0, 1⟩, ⟨0, 1, 0⟩, ⟨-1, 0, 0⟩⟩],
        [⟨0, 0, 0⟩, ⟨0, 0, 1⟩, ⟨0, 0, 1⟩, ⟨1, 0, 1⟩], [(0, 1), (2, 3)],
        [], [], []⟩ := by
    rw [step_F]
    unfold moveStep
    simp [p2]
    try norm_num
  have e5 : step p2 (⟨⟨⟨1, 0, 1⟩, ⟨1, 0, 0⟩, ⟨0, 1, 0⟩, ⟨0, 0, 1⟩⟩,
      [⟨⟨0, 0, 1⟩, ⟨0, 0, 1⟩, ⟨0, 1, 0⟩, ⟨-1, 0, 0⟩⟩],
      [⟨0, 0, 0⟩, ⟨0, 0, 1⟩, ⟨0, 0, 1⟩, ⟨1, 0, 1⟩], [(0, 1), (2, 3)],
      [], [], []⟩ : LState) ']' =
      ⟨⟨⟨0, 0, 1⟩, ⟨0, 0, 1⟩, ⟨0, 1, 0⟩, ⟨-1, 0, 0⟩⟩, [],
        [⟨0, 0, 0⟩, ⟨0, 0, 1⟩, ⟨0, 0, 1⟩, ⟨1, 0, 1⟩], [(0, 1), (2, 3)],
        [], [], []⟩ := rfl
  have e6 : step p2 (⟨⟨⟨0, 0, 1⟩, ⟨0, 0, 1⟩, ⟨0, 1, 0⟩, ⟨-1, 0, 0⟩⟩, [],
      [⟨0, 0, 0⟩, ⟨0, 0, 1⟩, ⟨0, 0, 1⟩, ⟨1, 0, 1⟩], [(0, 1), (2, 3)],
      [], [], []⟩ : LState) 'F' =
      ⟨⟨⟨0, 0, 2⟩, ⟨0, 0, 1⟩, ⟨0, 1, 0⟩, ⟨-1, 0, 0⟩⟩, [],
        [⟨0, 0, 0⟩, ⟨0, 0, 1⟩, ⟨0, 0, 1⟩, ⟨1, 0, 1⟩, ⟨0, 0, 1⟩, ⟨0, 0, 2⟩],
        [(0, 1), (2, 3), (4, 5)], [], [], []⟩ := by
    rw [step_F]
    unfold moveStep
    simp [p2]
    try norm_num
  have hF : run p2 ['F'] (initState p2) =
      ⟨⟨⟨0, 0, 1⟩, ⟨0, 0, 1⟩, ⟨0, 1, 0⟩, ⟨-1, 0, 0⟩⟩,
        [], [⟨0, 0, 0⟩, ⟨0, 0, 1⟩], [(0, 1)], [], [], []⟩ := by
    rw [show run p2 ['F'] (initState p2) = step p2 (initState p2) 'F' from rfl,
      initState_p2, e1]
  have hrun : run p2 cmds2 (initState p2) =
      ⟨⟨⟨0, 0, 2⟩, ⟨0, 0, 1⟩, ⟨0, 1, 0⟩, ⟨-1, 0, 0⟩⟩, [],
        [⟨0, 0, 0⟩, ⟨0, 0, 1⟩, ⟨0, 0, 1⟩, ⟨1, 0, 1⟩, ⟨0, 0, 1⟩, ⟨0, 0, 2⟩],
        [(0, 1), (2, 3), (4, 5)], [], [], []⟩ := by
    rw [show run p2 cmds2 (initState p2) =
        step p2 (step p2 (step p2 (step p2 (step p2 (step p2 (initState p2) 'F')
          '[') '+') 'F') ']') 'F' from rfl, initState_p2, e1, e2, e3, e4, e5, e6]
  refine ⟨by rw [hrun]; rfl, ?_, by rw [hrun, hF]; simp [p2]; norm_num⟩
  have hset : (run p2 cmds2 (initState p2)).verts.toFinset =
      ([⟨0, 0, 0⟩, ⟨0, 0, 1⟩, ⟨1, 0, 1⟩, ⟨0, 0, 2⟩] : List Vec3).toFinset := by
    rw [hrun]
    ext v
    simp only [List.mem_toFinset, List.mem_cons, List.not_mem_nil, or_false]
    tauto
  have hnodup : ([⟨0, 0, 0⟩, ⟨0, 0, 1⟩, ⟨1, 0, 1⟩, ⟨0, 0, 2⟩] : List Vec3).Nodup := by
    norm_num [List.nodup_cons, List.mem_cons, Vec3.mk.injEq]
  rw [hset, List.toFinset_card_of_nodup hnodup]
  rfl

/-! ### C9: leaf emission without a prototype -/

lemma leafStep_edges (p : LParams) (st : LState) :
    (leafStep p st).edges = st.edges := by
  unfold leafStep
  split_ifs <;> rfl

lemma leafStep_verts_syn (p : LParams) (st : LState)
    (h : p.hasLeafObject = false) :
    (leafStep p st).verts =
      st.verts ++ (leafLocalVerts p.leafScale).map
        (fun v => st.turtle.pos +
          frameApply st.turtle.left st.turtle.heading st.turtle.up v) := by
  unfold leafStep
  simp [h]

lemma leafStep_faces_syn (p : LParams) (st : LState)
    (h : p.hasLeafObject = false) :
    (leafStep p st).faces =
      st.faces ++ [(st.verts.length, st.verts.length + 1, st.verts.length + 2,
        st.verts.length + 3)] := by
  unfold leafStep
  simp [h]

/-- A step on a synthesizing leaf symbol always appends exactly one quad
face, whatever the transformed corner positions are (face creation from four
freshly created vertices cannot fail, so degenerate quads are appended, not
skipped). -/
lemma step_faces_leaf (p : LParams) (st : LState) (c : Char)
    (h : synthLeaf p c = true) :
    (step p st c).faces =
      st.faces ++ [(st.verts.length, st.verts.length + 1, st.verts.length + 2,
        st.verts.length + 3)] := by
  unfold synthLeaf at h
  simp only [Bool.and_eq_true, Bool.not_eq_true'] at h
  obtain ⟨htc, ⟨hadd, hsym⟩, hobj⟩ := h
  unfold isTurtleCmd at htc
  simp only [Bool.or_eq_false_iff] at htc
  obtain ⟨⟨⟨⟨⟨⟨⟨⟨hmv, hp⟩, hmn⟩, ham⟩, hcar⟩, hbs⟩, hsl⟩, hlb⟩, hrb⟩ := htc
  unfold step leafStep
  simp [hmv, hp, hmn, ham, hcar, hbs, hsl, hlb, hrb, hadd, hsym, hobj]

lemma initState_pLeaf (len s : ℝ) :
    initState (pLeaf len s) =
      ⟨⟨⟨0, 0, 0⟩, ⟨0, 0, 1⟩, ⟨0, 1, 0⟩, ⟨-1, 0, 0⟩⟩, [], [], [], [], [], []⟩ := by
  unfold initState
  rw [show (pLeaf len s).initialDirection = ⟨0, 0, 1⟩ from rfl, initTurtle_z]

/-- C9 (amended). With leaf generation enabled, leaf symbol `L` and no
prototype object, interpreting `FL` yields exactly 1 edge (from the `F`) and
exactly one quad face (from the `L`) whose corners are the four corners of
the `leafScale × leafScale` local rectangle transformed by
`translate(position) ∘ rotate(left, heading, up)`, all four distinct for any
positive scale; and a leaf quad — degenerate or not — is always appended as
a face without error (rather than being skipped: face creation from four
fresh vertices cannot fail). -/
theorem leaf_quad_emission (len s : ℝ) (hs : 0 < s) :
    (run (pLeaf len s) ['F', 'L'] (initState (pLeaf len s))).edges.length = 1 ∧
    (run (pLeaf len s) ['F', 'L'] (initState (pLeaf len s))).faces =
      [(2, 3, 4, 5)] ∧
    (run (pLeaf len s) ['F', 'L'] (initState (pLeaf len s))).verts.drop 2 =
      [⟨0.5 * s, 0, len⟩, ⟨-(0.5 * s), 0, len⟩, ⟨-(0.5 * s), 0, len + s⟩,
        ⟨0.5 * s, 0, len + s⟩] ∧
    ((run (pLeaf len s) ['F', 'L'] (initState (pLeaf len s))).verts.drop 2).Nodup ∧
    (∀ (q : LParams) (st : LState), synthLeaf q q.leafSymbol = true →
      (step q st q.leafSymbol).faces.length = st.faces.length + 1) := by
  have eF : step (pLeaf len s) (⟨⟨⟨0, 0, 0⟩, ⟨0, 0, 1⟩, ⟨0, 1, 0⟩, ⟨-1, 0, 0⟩⟩,
      [], [], [], [], [], []⟩ : LState) 'F' =
      ⟨⟨⟨0, 0, len⟩, ⟨0, 0, 1⟩, ⟨0, 1, 0⟩, ⟨-1, 0, 0⟩⟩,
        [], [⟨0, 0, 0⟩, ⟨0, 0, len⟩], [(0, 1)], [], [], []⟩ := by
    rw [step_F]
    unfold moveStep
    simp [pLeaf]
  have hrunL : run (pLeaf len s) ['F', 'L'] (initState (pLeaf len s)) =
      leafStep (pLeaf len s)
        (⟨⟨⟨0, 0, len⟩, ⟨0, 0, 1⟩, ⟨0, 1, 0⟩, ⟨-1, 0, 0⟩⟩,
          [], [⟨0, 0, 0⟩, ⟨0, 0, len⟩], [(0, 1)], [], [], []⟩ : LState) := by
    rw [show run (pLeaf len s) ['F', 'L'] (initState (pLeaf len s)) =
        step (pLeaf len s) (step (pLeaf len s) (initState (pLeaf len s)) 'F') 'L'
        from rfl, initState_pLeaf, eF]
    rfl
  have hdrop : (run (pLeaf len s) ['F', 'L'] (initState (pLeaf len s))).verts.drop 2 =
      [⟨0.5 * s, 0, len⟩, ⟨-(0.5 * s), 0, len⟩, ⟨-(0.5 * s), 0, len + s⟩,
        ⟨0.5 * s, 0, len + s⟩] := by
    rw [hrunL, leafStep_verts_syn _ _ rfl]
    simp [pLeaf, leafLocalVerts, frameApply]
  refine ⟨?_, ?_, hdrop, ?_, ?_⟩
  · rw [hrunL, leafStep_edges]
    rfl
  · rw [hrunL, leafStep_faces_syn _ _ rfl]
    rfl
  · rw [hdrop]
    refine List.nodup_cons.mpr ⟨?_, List.nodup_cons.mpr ⟨?_,
      List.nodup_cons.mpr ⟨?_, List.nodup_singleton _⟩⟩⟩
    · intro hmem
      simp only [List.mem_cons, List.not_mem_nil, or_false] at hmem
      rcases hmem with h | h | h <;>
        · rw [Vec3.mk.injEq] at h
          obtain ⟨h1, h2, h3⟩ := h
          nlinarith [hs]
    · intro hmem
      simp only [List.mem_cons, List.not_mem_nil, or_false] at hmem
      rcases hmem with h | h <;>
        · rw [Vec3.mk.injEq] at h
          obtain ⟨h1, h2, h3⟩ := h
          nlinarith [hs]
    · intro hmem
      simp only [List.mem_cons, List.not_mem_nil, or_false] at hmem
      rw [Vec3.mk.injEq] at hmem
      obtain ⟨h1, h2, h3⟩ := hmem
      nlinarith [hs]
  · intro q st h
    rw [step_faces_leaf q st q.leafSymbol h]
    simp

/-- Counterexample to the literal "degenerate quads are skipped" reading:
with leaf scale `0` all four transformed corners coincide (a fully
degenerate quad), yet the face is still appended to the mesh — the mesh gets
one face and four coincident vertices, not zero faces. -/
theorem degenerate_leaf_quad_not_skipped :
    (run pLeaf0 ['L'] (initState pLeaf0)).faces.length = 1 ∧
    (run pLeaf0 ['L'] (initState pLeaf0)).verts =
      [⟨0, 0, 0⟩, ⟨0, 0, 0⟩, ⟨0, 0, 0⟩, ⟨0, 0, 0⟩] := by
  have hinit0 : initState pLeaf0 =
      ⟨⟨⟨0, 0, 0⟩, ⟨0, 0, 1⟩, ⟨0, 1, 0⟩, ⟨-1, 0, 0⟩⟩, [], [], [], [], [], []⟩ :=
    initState_pLeaf 1 0
  have h1 : run pLeaf0 ['L'] (initState pLeaf0) =
      leafStep pLeaf0
        (⟨⟨⟨0, 0, 0⟩, ⟨0, 0, 1⟩, ⟨0, 1, 0⟩, ⟨-1, 0, 0⟩⟩,
          [], [], [], [], [], []⟩ : LState) := by
    rw [show run pLeaf0 ['L'] (initState pLeaf0) =
        step pLeaf0 (initState pLeaf0) 'L' from rfl, hinit0]
    rfl
  constructor
  · rw [h1, leafStep_faces_syn _ _ rfl]
    rfl
  · rw [h1, leafStep_verts_syn _ _ rfl]
    simp [pLeaf0, pLeaf, leafLocalVerts, frameApply]

/-- Witness for `leaf_quad_emission` at unit length and unit leaf scale. -/
theorem leaf_quad_emission_witness :
    (0 : ℝ) < 1 ∧
    ((run (pLeaf 1 1) ['F', 'L'] (initState (pLeaf 1 1))).edges.length = 1 ∧
      (run (pLeaf 1 1) ['F', 'L'] (initState (pLeaf 1 1))).faces = [(2, 3, 4, 5)] ∧
      (run (pLeaf 1 1) ['F', 'L'] (initState (pLeaf 1 1))).verts.drop 2 =
        [⟨0.5 * 1, 0, 1⟩, ⟨-(0.5 * 1), 0, 1⟩, ⟨-(0.5 * 1), 0, 1 + 1⟩,
          ⟨0.5 * 1, 0, 1 + 1⟩] ∧
      ((run (pLeaf 1 1) ['F', 'L'] (initState (pLeaf 1 1))).verts.drop 2).Nodup ∧
      (∀ (q : LParams) (st : LState), synthLeaf q q.leafSymbol = true →
        (step q st q.leafSymbol).faces.length = st.faces.length + 1)) :=
  ⟨one_pos, leaf_quad_emission 1 1 one_pos⟩

end

end PlantGen
